import Mathlib

/-!
Shallow embedding of the cache2go cache-region engine (cacheitem.go,
cachetable.go, cache.go) and verification of its specification claims.

Modelling conventions:
* `time.Time` and `time.Duration` are both nanosecond counts, embedded as
  `Int` (Go stores both as signed 64-bit nanoseconds; the quantities the
  claims speak about are far from overflow, so plain `Int` is used).
  `time.Now()` is threaded through every time-dependent operation as an
  explicit `now : Int` argument.
* Go's `map[interface{}]*CacheItem` is embedded as an association list of
  items keyed by `CacheItem.key`; `items[key] = item` is `insertItem`
  (replace the first binding with that key, else append), `delete` is
  `removeItem`, lookup is `lookupItem`.  States reached through the API
  always have pairwise distinct keys, matching the Go map.
* Pointer mutation (`KeepAlive` on a shared `*CacheItem`) is embedded by
  value: the updated item is both returned and written back to the store.
* User callbacks are opaque; a callback list is a list of identifiers
  (`List Nat`) and an operation additionally returns the trace of callback
  invocations it performs, as a `List (Event K V)` in invocation order.
* Timers and locks are real-time / concurrency artefacts and are not part
  of the state; `cleanupTimer` arming is dropped, `cleanupInterval` is kept.
* `loadData` is a function-typed field in Go; it is threaded into `Value`
  as an explicit `loader` argument (the loader's variadic `args` are passed
  through untouched by the code, so they are omitted).
-/

namespace Cache2go

/-- Embeds `CacheItem` (cacheitem.go): a cached key/value pair with expiry
and access metadata plus its `aboutToExpire` callback list. -/
structure CacheItem (K V : Type) where
  key : K
  data : V
  lifeSpan : Int
  createdOn : Int
  accessedOn : Int
  accessCount : Int
  aboutToExpire : List Nat
  deriving Repr, DecidableEq

/-- Embeds `NewCacheItem`: fresh item with `createdOn = accessedOn = now`,
`accessCount = 0` and no callbacks. -/
def newCacheItem {K V : Type} (key : K) (lifeSpan : Int) (data : V) (now : Int) :
    CacheItem K V :=
  { key := key, data := data, lifeSpan := lifeSpan, createdOn := now,
    accessedOn := now, accessCount := 0, aboutToExpire := [] }

/-- Embeds `CacheItem.KeepAlive`: refresh `accessedOn` to now and increment
`accessCount`. -/
def keepAlive {K V : Type} (item : CacheItem K V) (now : Int) : CacheItem K V :=
  { item with accessedOn := now, accessCount := item.accessCount + 1 }

/-- Modelled from the spec: the two error sentinels `ErrKeyNotFound` and
`ErrKeyNotFoundOrLoadable` referenced by cachetable.go live in an errors
file that is not part of the provided sources; they are opaque distinct
error values ("KeyNotFound", "KeyNotFoundOrNotLoadable" in the spec). -/
inductive CacheError where
  | keyNotFound
  | keyNotFoundOrLoadable
  deriving Repr, DecidableEq

/-- A record of one user-callback invocation: which callback (by identifier)
was called and with what argument. -/
inductive Event (K V : Type) where
  | added (cb : Nat) (item : CacheItem K V)
  | aboutToDelete (cb : Nat) (item : CacheItem K V)
  | aboutToExpire (cb : Nat) (key : K)
  deriving Repr, DecidableEq

/-- Embeds `CacheTable` (cachetable.go): the item store, the sweep interval,
and the two table-level callback lists.  The `name`, `logger` and
`cleanupTimer` fields are diagnostics / real-time artefacts and are omitted;
`loadData` is threaded into `Value` as an explicit argument. -/
structure CacheTable (K V : Type) where
  items : List (CacheItem K V)
  cleanupInterval : Int
  addedItem : List Nat
  aboutToDeleteItem : List Nat
  deriving Repr, DecidableEq

variable {K V : Type} [DecidableEq K]

/-- Embeds `table.items[key]` lookup: first item whose key matches. -/
def lookupItem : List (CacheItem K V) → K → Option (CacheItem K V)
  | [], _ => none
  | it :: rest, k => if it.key = k then some it else lookupItem rest k

/-- Embeds `table.items[item.key] = item`: replace the first binding with
that key, else append. -/
def insertItem : List (CacheItem K V) → CacheItem K V → List (CacheItem K V)
  | [], item => [item]
  | it :: rest, item =>
    if it.key = item.key then item :: rest else it :: insertItem rest item

/-- Embeds `delete(table.items, key)`: drop the binding with that key. -/
def removeItem : List (CacheItem K V) → K → List (CacheItem K V)
  | [], _ => []
  | it :: rest, k => if it.key = k then rest else it :: removeItem rest k

/-- Embeds `Count`: number of stored items. -/
def Count (table : CacheTable K V) : Nat :=
  table.items.length

/-- Embeds `Exists`: membership test without touching access metadata. -/
def existsKey (table : CacheTable K V) (key : K) : Bool :=
  (lookupItem table.items key).isSome

/-- Embeds the `smallestDuration` update of `expirationCheck` (cachetable.go
lines 135-137): adopt the new remaining time when no candidate has been
recorded yet (`smallestDuration == 0`) or when it is smaller. -/
def stepMin (smallest rem : Int) : Int :=
  if smallest = 0 ∨ rem < smallest then rem else smallest

/-- The callback trace of one internal deletion (`deleteInternal`): the
table's `aboutToDeleteItem` callbacks on the item, then the item's own
`aboutToExpire` callbacks on the key. -/
def deleteEvents (cbs : List Nat) (it : CacheItem K V) : List (Event K V) :=
  cbs.map (fun cb => Event.aboutToDelete cb it)
    ++ it.aboutToExpire.map (fun cb => Event.aboutToExpire cb it.key)

/-- Embeds the scan loop of `expirationCheck`: walk the items; keep items
with `lifeSpan == 0`; delete (via the `deleteInternal` callback sequence)
items with `now - accessedOn > lifeSpan`; fold the remaining lifetime of
the survivors into `smallestDuration` with `stepMin`.  Returns (surviving
items, callback trace, final `smallestDuration`). -/
def sweepLoop (cbs : List Nat) (now : Int) (smallest : Int) :
    List (CacheItem K V) → List (CacheItem K V) × List (Event K V) × Int
  | [] => ([], [], smallest)
  | it :: rest =>
    if it.lifeSpan = 0 then
      let res := sweepLoop cbs now smallest rest
      (it :: res.1, res.2)
    else if it.lifeSpan < now - it.accessedOn then
      let res := sweepLoop cbs now smallest rest
      (res.1, deleteEvents cbs it ++ res.2.1, res.2.2)
    else
      let res := sweepLoop cbs now (stepMin smallest (it.lifeSpan - (now - it.accessedOn))) rest
      (it :: res.1, res.2)

/-- Embeds `expirationCheck`: delete every expired item, set
`cleanupInterval` to the final `smallestDuration` (timer arming is a
real-time artefact and is dropped). -/
def expirationCheck (table : CacheTable K V) (now : Int) :
    CacheTable K V × List (Event K V) :=
  let res := sweepLoop table.aboutToDeleteItem now 0 table.items
  ({ table with items := res.1, cleanupInterval := res.2.2 }, res.2.1)

/-- Embeds `addInternal`: store the item, fire the `addedItem` callbacks,
then run `expirationCheck` when the new item's positive lifespan is sooner
than the scheduled interval (`expDur == 0 || item.lifeSpan < expDur`). -/
def addInternal (table : CacheTable K V) (item : CacheItem K V) (now : Int) :
    CacheTable K V × List (Event K V) :=
  let t1 : CacheTable K V := { table with items := insertItem table.items item }
  let addedEvents := table.addedItem.map (fun cb => Event.added cb item)
  if 0 < item.lifeSpan ∧ (table.cleanupInterval = 0 ∨ item.lifeSpan < table.cleanupInterval) then
    let res := expirationCheck t1 now
    (res.1, addedEvents ++ res.2)
  else
    (t1, addedEvents)

/-- Embeds `Add`: build a fresh item and hand it to `addInternal`.  The Go
function also returns the new item; callers below reconstruct it as
`newCacheItem key lifeSpan data now`. -/
def Add (table : CacheTable K V) (key : K) (lifeSpan : Int) (data : V) (now : Int) :
    CacheTable K V × List (Event K V) :=
  addInternal table (newCacheItem key lifeSpan data now) now

/-- Embeds `deleteInternal`: on a missing key fail with `ErrKeyNotFound`;
otherwise fire the table's `aboutToDeleteItem` callbacks and the item's
`aboutToExpire` callbacks, remove the item and return it. -/
def deleteInternal (table : CacheTable K V) (key : K) :
    Except CacheError (CacheItem K V) × CacheTable K V × List (Event K V) :=
  match lookupItem table.items key with
  | none => (Except.error CacheError.keyNotFound, table, [])
  | some r =>
    (Except.ok r, { table with items := removeItem table.items key },
      deleteEvents table.aboutToDeleteItem r)

/-- Embeds `Delete`: the public wrapper around `deleteInternal` (the lock
acquisition it adds is a concurrency artefact). -/
def Delete (table : CacheTable K V) (key : K) :
    Except CacheError (CacheItem K V) × CacheTable K V × List (Event K V) :=
  deleteInternal table key

/-- Embeds `NotFoundAdd`: return `false` without mutation when the key is
present, else insert a fresh item through `addInternal` and return `true`. -/
def NotFoundAdd (table : CacheTable K V) (key : K) (lifeSpan : Int) (data : V) (now : Int) :
    Bool × CacheTable K V × List (Event K V) :=
  match lookupItem table.items key with
  | some _ => (false, table, [])
  | none =>
    let res := addInternal table (newCacheItem key lifeSpan data now) now
    (true, res.1, res.2)

/-- Embeds `Value`: on a hit, `KeepAlive` the item and return it; on a miss
invoke the loader when configured; a usable loaded item is re-inserted via
`Add(item.key, item.lifeSpan, item.data)` and the loaded item itself is
returned; otherwise fail with the matching error. -/
def Value (table : CacheTable K V) (loader : Option (K → Option (CacheItem K V)))
    (key : K) (now : Int) :
    Except CacheError (CacheItem K V) × CacheTable K V × List (Event K V) :=
  match lookupItem table.items key with
  | some r =>
    let r' := keepAlive r now
    (Except.ok r', { table with items := insertItem table.items r' }, [])
  | none =>
    match loader with
    | some f =>
      match f key with
      | some item =>
        let res := Add table item.key item.lifeSpan item.data now
        (Except.ok item, res.1, res.2)
      | none => (Except.error CacheError.keyNotFoundOrLoadable, table, [])
    | none => (Except.error CacheError.keyNotFound, table, [])

/-- Embeds `Flush`: empty the store and reset `cleanupInterval`; no
callbacks are invoked (timer cancellation is a real-time artefact). -/
def Flush (table : CacheTable K V) : CacheTable K V × List (Event K V) :=
  ({ table with items := [], cleanupInterval := 0 }, [])

/-- Embeds the snapshot phase of `MostAccessed`: the `(Key, AccessCount)`
pairs of the stored items. -/
def snapshotPairs (items : List (CacheItem K V)) : List (K × Int) :=
  items.map (fun it => (it.key, it.accessCount))

/-- One insertion step of the sort used by `MostAccessed`: a pair goes in
front of the first pair with a strictly smaller access count
(`CacheItemList.Less i j ⇔ p[i].AccessCount > p[j].AccessCount`). -/
def insertPair (x : K × Int) : List (K × Int) → List (K × Int)
  | [] => [x]
  | y :: l => if y.2 < x.2 then x :: y :: l else y :: insertPair x l

/-- Embeds `sort.Sort(p)` on a `CacheItemList`: sort by descending access
count.  `sort.Sort` is an unstable comparison sort; among equal access
counts it leaves the order unspecified, and this embedding fixes one such
order (claims about ranking only ever assume distinct counts). -/
def sortPairs : List (K × Int) → List (K × Int)
  | [] => []
  | x :: l => insertPair x (sortPairs l)

/-- Embeds the resolution loop of `MostAccessed` (cachetable.go lines
300-309): walk the sorted pairs with counter `c` starting from 0; stop when
`c >= count`; re-resolve each key against the live store, appending the item
on success; `c` is incremented for every examined pair, resolved or not. -/
def resolveKeys (items : List (CacheItem K V)) (count : Int) :
    List (K × Int) → Int → List (CacheItem K V)
  | [], _ => []
  | pr :: rest, c =>
    if count ≤ c then []
    else
      match lookupItem items pr.1 with
      | some it => it :: resolveKeys items count rest (c + 1)
      | none => resolveKeys items count rest (c + 1)

/-- Embeds `MostAccessed`: snapshot, sort descending, resolve up to `count`. -/
def MostAccessed (table : CacheTable K V) (count : Int) : List (CacheItem K V) :=
  resolveKeys table.items count (sortPairs (snapshotPairs table.items)) 0

/-- The smallest element of a list of durations, or `0` for the empty list:
the value `expirationCheck` is specified to leave in `cleanupInterval`. -/
def minOrZero : List Int → Int
  | [] => 0
  | x :: xs => xs.foldl min x

/-- The remaining lifetimes `ttl - (now - lastAccessedAt)` of the entries
with positive ttl that survive a sweep at `now`. -/
def remainingList (now : Int) (items : List (CacheItem K V)) : List Int :=
  (items.filter (fun it => decide (0 < it.lifeSpan ∧ now - it.accessedOn ≤ it.lifeSpan))).map
    (fun it => it.lifeSpan - (now - it.accessedOn))

/-- Concrete fixture: a table holding one immortal item under key 1
(`key 1, data 11, lifeSpan 0, createdOn 2, accessedOn 3, accessCount 4`). -/
def tableHit : CacheTable Nat Nat :=
  ⟨[⟨1, 11, 0, 2, 3, 4, []⟩], 0, [], []⟩

/-- Concrete fixture: an empty table. -/
def tableEmpty : CacheTable Nat Nat :=
  ⟨[], 0, [], []⟩

/-- Concrete fixture: four immortal items with access counts 5, 1, 9, 3. -/
def tableRanked : CacheTable Nat Nat :=
  ⟨[⟨1, 0, 0, 0, 0, 5, []⟩, ⟨2, 0, 0, 0, 0, 1, []⟩,
    ⟨3, 0, 0, 0, 0, 9, []⟩, ⟨4, 0, 0, 0, 0, 3, []⟩], 0, [], []⟩

/-- Concrete fixture: one item with a negative lifespan. -/
def tableNegTtl : CacheTable Nat Nat :=
  ⟨[⟨1, 0, -1, 0, 0, 0, []⟩], 0, [], []⟩

/-- Concrete fixture: at time 5, the first item's remaining lifetime is
exactly 0 (lifeSpan 5, accessedOn 0) and the second item's is 2. -/
def tableZeroRem : CacheTable Nat Nat :=
  ⟨[⟨1, 0, 5, 0, 0, 0, []⟩, ⟨2, 0, 7, 0, 0, 0, []⟩], 0, [], []⟩

/-- Concrete fixture: an immortal item under key 1, plus an item under key 2
(lifeSpan 5, accessedOn 0) carrying on-expire callback 9; the table has
on-delete callback 7. -/
def tableReplace : CacheTable Nat Nat :=
  ⟨[⟨1, 0, 0, 0, 0, 0, []⟩, ⟨2, 0, 5, 0, 0, 0, [9]⟩], 0, [], [7]⟩

/-- Concrete fixture: one item under key 1 (lifeSpan 5, accessedOn 0); the
table has on-add callback 3 and on-delete callback 7. -/
def tableReplaceOk : CacheTable Nat Nat :=
  ⟨[⟨1, 0, 5, 0, 0, 0, []⟩], 0, [3], [7]⟩

/-- Concrete fixture: a store holding only key 2 (access count 3), used
against a stale snapshot that still lists key 1. -/
def itemsSkip : List (CacheItem Nat Nat) :=
  [⟨2, 0, 0, 0, 0, 3, []⟩]

/-- Concrete fixture: a loader that ignores the requested key and produces
an item under key 99 with nonzero metadata (accessCount 7). -/
def loaderStale : Nat → Option (CacheItem Nat Nat) :=
  fun _ => some ⟨99, 7, 0, 0, 0, 7, []⟩

/-- Concrete fixture: a loader that produces an item under the requested
key (data 5, immortal, accessCount 7). -/
def loaderFresh : Nat → Option (CacheItem Nat Nat) :=
  fun k => some ⟨k, 5, 0, 0, 0, 7, []⟩

/-! ## Basic lemmas about the store operations -/

theorem lookupItem_key :
    ∀ (items : List (CacheItem K V)) (k : K) (it : CacheItem K V),
      lookupItem items k = some it → it.key = k := by
  intro items
  induction items with
  | nil => intro k it h; simp [lookupItem] at h
  | cons x rest ih =>
    intro k it h
    rw [lookupItem] at h
    by_cases hk : x.key = k
    · simp [hk] at h; subst h; exact hk
    · simp [hk] at h; exact ih k it h

theorem lookupItem_insertItem_self :
    ∀ (items : List (CacheItem K V)) (it : CacheItem K V),
      lookupItem (insertItem items it) it.key = some it := by
  intro items
  induction items with
  | nil => intro it; simp [insertItem, lookupItem]
  | cons x rest ih =>
    intro it
    by_cases h : x.key = it.key
    · simp [insertItem, h, lookupItem]
    · simp [insertItem, h, lookupItem, ih it]

theorem lookupItem_filter (p : CacheItem K V → Bool) :
    ∀ (items : List (CacheItem K V)) (k : K) (it : CacheItem K V),
      lookupItem items k = some it → p it = true →
      lookupItem (items.filter p) k = some it := by
  intro items
  induction items with
  | nil => intro k it h _; simp [lookupItem] at h
  | cons x rest ih =>
    intro k it h hp
    rw [lookupItem] at h
    by_cases hk : x.key = k
    · simp [hk] at h
      subst h
      rw [List.filter_cons, if_pos hp]
      simp [lookupItem, hk]
    · simp [hk] at h
      rw [List.filter_cons]
      by_cases hpx : p x
      · simp only [hpx, if_pos]
        rw [lookupItem, if_neg hk]
        exact ih k it h hp
      · simp only [hpx]
        simp only [Bool.false_eq_true, if_false]
        exact ih k it h hp

theorem mem_insertItem :
    ∀ (items : List (CacheItem K V)) (it a : CacheItem K V),
      a ∈ insertItem items it → a = it ∨ a ∈ items := by
  intro items
  induction items with
  | nil => intro it a h; simp [insertItem] at h; exact Or.inl h
  | cons x rest ih =>
    intro it a h
    by_cases hk : x.key = it.key
    · rw [insertItem, if_pos hk] at h
      rcases List.mem_cons.1 h with rfl | h'
      · exact Or.inl rfl
      · exact Or.inr (List.mem_cons_of_mem x h')
    · rw [insertItem, if_neg hk] at h
      rcases List.mem_cons.1 h with rfl | h'
      · exact Or.inr (List.mem_cons_self a rest)
      · rcases ih it a h' with h'' | h''
        · exact Or.inl h''
        · exact Or.inr (List.mem_cons_of_mem x h'')

theorem length_insertItem :
    ∀ (items : List (CacheItem K V)) (it : CacheItem K V),
      (lookupItem items it.key).isSome → (insertItem items it).length = items.length := by
  intro items
  induction items with
  | nil => intro it h; simp [lookupItem] at h
  | cons x rest ih =>
    intro it h
    by_cases hk : x.key = it.key
    · simp [insertItem, hk]
    · rw [lookupItem, if_neg hk] at h
      simp [insertItem, hk, ih it h]

/-! ## Lemmas about the expiration sweep -/

theorem sweepLoop_items (cbs : List Nat) (now : Int) :
    ∀ (items : List (CacheItem K V)) (smallest : Int),
      (sweepLoop cbs now smallest items).1
        = items.filter (fun it => decide (it.lifeSpan = 0 ∨ now - it.accessedOn ≤ it.lifeSpan)) := by
  intro items
  induction items with
  | nil => intro s; rfl
  | cons it rest ih =>
    intro s
    by_cases h0 : it.lifeSpan = 0
    · simp [sweepLoop, h0, ih]
    · by_cases hexp : it.lifeSpan < now - it.accessedOn
      · have hn : ¬ (now ≤ it.lifeSpan + it.accessedOn) := by omega
        simp [sweepLoop, h0, hexp, ih]
        rw [List.filter_cons]
        simp [h0, hn]
      · have hs : now ≤ it.lifeSpan + it.accessedOn := by omega
        simp [sweepLoop, h0, hexp, ih]
        rw [List.filter_cons]
        simp [hs]

theorem sweepLoop_events (cbs : List Nat) (now : Int) :
    ∀ (items : List (CacheItem K V)) (smallest : Int),
      (∀ it ∈ items, it.lifeSpan = 0 ∨ now - it.accessedOn ≤ it.lifeSpan) →
      (sweepLoop cbs now smallest items).2.1 = [] := by
  intro items
  induction items with
  | nil => intro s _; rfl
  | cons it rest ih =>
    intro s h
    have hit := h it (List.mem_cons_self it rest)
    have hrest : ∀ x ∈ rest, x.lifeSpan = 0 ∨ now - x.accessedOn ≤ x.lifeSpan :=
      fun x hx => h x (List.mem_cons_of_mem it hx)
    by_cases h0 : it.lifeSpan = 0
    · simp [sweepLoop, h0, ih _ hrest]
    · have hs : now - it.accessedOn ≤ it.lifeSpan := by
        rcases hit with h' | h'
        · exact absurd h' h0
        · exact h'
      have hexp : ¬ (it.lifeSpan < now - it.accessedOn) := by omega
      simp [sweepLoop, h0, hexp, ih _ hrest]

theorem sweepLoop_duration (cbs : List Nat) (now : Int) :
    ∀ (items : List (CacheItem K V)) (smallest : Int),
      (sweepLoop cbs now smallest items).2.2
        = ((items.filter
              (fun it => decide (it.lifeSpan ≠ 0 ∧ now - it.accessedOn ≤ it.lifeSpan))).map
            (fun it => it.lifeSpan - (now - it.accessedOn))).foldl stepMin smallest := by
  intro items
  induction items with
  | nil => intro s; rfl
  | cons it rest ih =>
    intro s
    rw [List.filter_cons]
    by_cases h0 : it.lifeSpan = 0
    · have hp : ¬ (it.lifeSpan ≠ 0 ∧ now - it.accessedOn ≤ it.lifeSpan) := by
        intro h; exact h.1 h0
      rw [if_neg (by simpa using hp)]
      simp only [sweepLoop, h0, if_pos]
      exact ih s
    · by_cases hexp : it.lifeSpan < now - it.accessedOn
      · have hp : ¬ (it.lifeSpan ≠ 0 ∧ now - it.accessedOn ≤ it.lifeSpan) := by
          intro h; omega
        rw [if_neg (by simpa using hp)]
        rw [sweepLoop, if_neg h0, if_pos hexp]
        exact ih s
      · have hp : it.lifeSpan ≠ 0 ∧ now - it.accessedOn ≤ it.lifeSpan := ⟨h0, by omega⟩
        rw [if_pos (by simpa using hp)]
        rw [sweepLoop, if_neg h0, if_neg hexp]
        rw [List.map_cons, List.foldl_cons]
        exact ih (stepMin s (it.lifeSpan - (now - it.accessedOn)))

theorem foldl_stepMin_pos :
    ∀ (l : List Int) (acc : Int), 0 < acc → (∀ r ∈ l, 0 < r) →
      l.foldl stepMin acc = l.foldl min acc := by
  intro l
  induction l with
  | nil => intro acc _ _; rfl
  | cons x xs ih =>
    intro acc hacc hl
    have hx : 0 < x := hl x (List.mem_cons_self x xs)
    have hstep : stepMin acc x = min acc x := by
      rw [stepMin, min_def]
      split_ifs <;> omega
    rw [List.foldl_cons, List.foldl_cons, hstep]
    exact ih (min acc x) (lt_min hacc hx) (fun r hr => hl r (List.mem_cons_of_mem x hr))

theorem foldl_stepMin_zero (l : List Int) (hl : ∀ r ∈ l, 0 < r) :
    l.foldl stepMin 0 = minOrZero l := by
  cases l with
  | nil => rfl
  | cons x xs =>
    rw [minOrZero, List.foldl_cons]
    have hx : stepMin 0 x = x := by simp [stepMin]
    rw [hx]
    exact foldl_stepMin_pos xs x (hl x (List.mem_cons_self x xs))
      (fun r hr => hl r (List.mem_cons_of_mem x hr))

theorem lookupItem_addInternal (table : CacheTable K V) (it : CacheItem K V) (now : Int)
    (hp : 0 < it.lifeSpan → now - it.accessedOn ≤ it.lifeSpan) :
    lookupItem (addInternal table it now).1.items it.key = some it := by
  rw [addInternal]
  by_cases hcond : 0 < it.lifeSpan ∧
      (table.cleanupInterval = 0 ∨ it.lifeSpan < table.cleanupInterval)
  · simp only [hcond, if_pos, expirationCheck]
    rw [sweepLoop_items]
    apply lookupItem_filter
    · exact lookupItem_insertItem_self table.items it
    · simp [hp hcond.1]
  · simp only [hcond, if_neg, not_false_iff]
    exact lookupItem_insertItem_self table.items it

theorem lookupItem_Add (table : CacheTable K V) (key : K) (ttl : Int) (v : V) (now : Int) :
    lookupItem (Add table key ttl v now).1.items key = some (newCacheItem key ttl v now) := by
  have h := lookupItem_addInternal table (newCacheItem key ttl v now) now
    (fun h => by simp [newCacheItem] at h ⊢; omega)
  simpa [Add, newCacheItem] using h

/-! ## Lemmas about the MostAccessed sort and resolution -/

theorem insertPair_perm :
    ∀ (l : List (K × Int)) (x : K × Int), (insertPair x l).Perm (x :: l) := by
  intro l
  induction l with
  | nil => intro x; exact List.Perm.refl _
  | cons y ys ih =>
    intro x
    rw [insertPair]
    by_cases h : y.2 < x.2
    · rw [if_pos h]
    · rw [if_neg h]
      exact ((ih x).cons y).trans (List.Perm.swap x y ys)

theorem sortPairs_perm : ∀ (l : List (K × Int)), (sortPairs l).Perm l := by
  intro l
  induction l with
  | nil => exact List.Perm.refl _
  | cons x xs ih =>
    rw [sortPairs]
    exact (insertPair_perm (sortPairs xs) x).trans (ih.cons x)

theorem pairwise_insertPair (x : K × Int) :
    ∀ (l : List (K × Int)), l.Pairwise (fun a b => b.2 ≤ a.2) →
      (insertPair x l).Pairwise (fun a b => b.2 ≤ a.2) := by
  intro l
  induction l with
  | nil => intro _; exact List.pairwise_singleton _ x
  | cons y ys ih =>
    intro hp
    rw [List.pairwise_cons] at hp
    obtain ⟨hy, hys⟩ := hp
    rw [insertPair]
    by_cases h : y.2 < x.2
    · rw [if_pos h]
      refine List.Pairwise.cons ?_ (List.Pairwise.cons hy hys)
      intro b hb
      rcases List.mem_cons.1 hb with rfl | hb'
      · exact h.le
      · exact le_trans (hy b hb') h.le
    · rw [if_neg h]
      refine List.Pairwise.cons ?_ (ih hys)
      intro b hb
      rcases List.mem_cons.1 ((insertPair_perm ys x).mem_iff.mp hb) with rfl | hb'
      · omega
      · exact hy b hb'

theorem sortPairs_pairwise :
    ∀ (l : List (K × Int)), (sortPairs l).Pairwise (fun a b => b.2 ≤ a.2) := by
  intro l
  induction l with
  | nil => exact List.Pairwise.nil
  | cons x xs ih =>
    rw [sortPairs]
    exact pairwise_insertPair x (sortPairs xs) ih

theorem resolveKeys_eq_filterMap (items : List (CacheItem K V)) (count : Int) :
    ∀ (p : List (K × Int)) (c : Int),
      resolveKeys items count p c
        = (p.take (count - c).toNat).filterMap (fun pr => lookupItem items pr.1) := by
  intro p
  induction p with
  | nil => intro c; simp [resolveKeys]
  | cons pr rest ih =>
    intro c
    rw [resolveKeys]
    by_cases hc : count ≤ c
    · rw [if_pos hc, show (count - c).toNat = 0 from by omega]
      rfl
    · rw [if_neg hc, show (count - c).toNat = (count - (c + 1)).toNat + 1 from by omega,
        List.take_succ_cons, List.filterMap_cons]
      cases hl : lookupItem items pr.1 with
      | none => rw [ih]
      | some it => rw [ih]

theorem lookupItem_of_mem_nodup :
    ∀ (items : List (CacheItem K V)) (it : CacheItem K V),
      (items.map CacheItem.key).Nodup → it ∈ items → lookupItem items it.key = some it := by
  intro items
  induction items with
  | nil => intro it _ h; simp at h
  | cons x rest ih =>
    intro it hnd hm
    rw [List.map_cons, List.nodup_cons] at hnd
    obtain ⟨hx, hnd'⟩ := hnd
    rcases List.mem_cons.1 hm with rfl | hm'
    · rw [lookupItem, if_pos rfl]
    · rw [lookupItem]
      by_cases hk : x.key = it.key
      · exact absurd (hk ▸ List.mem_map_of_mem CacheItem.key hm') hx
      · rw [if_neg hk]
        exact ih it hnd' hm'

theorem filterMap_lookup_map (items : List (CacheItem K V)) :
    ∀ (p : List (K × Int)),
      (∀ pr ∈ p, ∃ it, lookupItem items pr.1 = some it ∧ it.accessCount = pr.2) →
      (p.filterMap (fun pr => lookupItem items pr.1)).map CacheItem.accessCount
        = p.map Prod.snd := by
  intro p
  induction p with
  | nil => intro _; rfl
  | cons pr rest ih =>
    intro h
    obtain ⟨it, hl, hc⟩ := h pr (List.mem_cons_self pr rest)
    simp only [List.filterMap_cons, hl, List.map_cons]
    rw [ih (fun x hx => h x (List.mem_cons_of_mem pr hx)), hc]

/-! ## Claim theorems -/

/-- C7: for every table and every key absent from its store, `Delete`
fails with `KeyNotFound` and leaves the store completely unchanged, with no
callbacks invoked. -/
theorem delete_absent_keyNotFound (table : CacheTable K V) (key : K)
    (h : lookupItem table.items key = none) :
    Delete table key = (Except.error CacheError.keyNotFound, table, []) := by
  simp [Delete, deleteInternal, h]

/-- C7 witness: `Delete` of key 5 on the empty table fails with
`KeyNotFound` and changes nothing. -/
theorem delete_absent_keyNotFound_app :
    Delete tableEmpty 5 = (Except.error CacheError.keyNotFound, tableEmpty, []) :=
  delete_absent_keyNotFound tableEmpty 5 rfl

/-- C9: `Flush` leaves the store empty with `cleanupInterval = 0` and
invokes no callbacks at all. -/
theorem flush_spec (table : CacheTable K V) :
    Count (Flush table).1 = 0 ∧ (Flush table).1.cleanupInterval = 0
      ∧ (Flush table).2 = [] ∧ ∀ k, existsKey (Flush table).1 k = false :=
  ⟨rfl, rfl, rfl, fun _ => rfl⟩

/-- C8: `NotFoundAdd` returns `false` without any mutation when the key is
already stored, and otherwise inserts a fresh entry under the key and
returns `true`. -/
theorem notFoundAdd_spec (table : CacheTable K V) (key : K) (ttl : Int) (v : V) (now : Int) :
    (∀ r, lookupItem table.items key = some r →
        NotFoundAdd table key ttl v now = (false, table, []))
    ∧ (lookupItem table.items key = none →
        (NotFoundAdd table key ttl v now).1 = true
        ∧ lookupItem (NotFoundAdd table key ttl v now).2.1.items key
            = some (newCacheItem key ttl v now)) := by
  constructor
  · intro r h
    simp [NotFoundAdd, h]
  · intro h
    have hl := lookupItem_addInternal table (newCacheItem key ttl v now) now
      (fun hpos => by simp [newCacheItem] at hpos ⊢; omega)
    constructor
    · simp [NotFoundAdd, h]
    · simpa [NotFoundAdd, h, newCacheItem] using hl

/-- C8 witness: on `tableHit` (key 1 present) `NotFoundAdd` of key 1
returns `false` unchanged, and on the empty table `NotFoundAdd` of key 1
inserts the fresh entry and returns `true`. -/
theorem notFoundAdd_spec_app :
    NotFoundAdd tableHit 1 6 22 10 = (false, tableHit, [])
    ∧ (NotFoundAdd tableEmpty 1 6 22 10).1 = true
    ∧ lookupItem (NotFoundAdd tableEmpty 1 6 22 10).2.1.items 1
        = some (newCacheItem 1 6 22 10) := by
  refine ⟨(notFoundAdd_spec tableHit 1 6 22 10).1 ⟨1, 11, 0, 2, 3, 4, []⟩ rfl, ?_, ?_⟩
  · exact ((notFoundAdd_spec tableEmpty 1 6 22 10).2 rfl).1
  · exact ((notFoundAdd_spec tableEmpty 1 6 22 10).2 rfl).2

/-- C1: `Value` on a hit refreshes `accessedOn` to now, increments
`accessCount` (so a freshly added entry read once has `accessCount = 1`)
and returns the stored (refreshed) entry; on a miss with no loader it fails
with `KeyNotFound`; on a miss where the loader returns nothing it fails
with `KeyNotFoundOrNotLoadable`. -/
theorem value_spec (table : CacheTable K V) (loader : Option (K → Option (CacheItem K V)))
    (key : K) (now : Int) :
    (∀ r, lookupItem table.items key = some r →
        Value table loader key now
          = (Except.ok (keepAlive r now),
             { table with items := insertItem table.items (keepAlive r now) }, [])
        ∧ (keepAlive r now).accessedOn = now
        ∧ (keepAlive r now).accessCount = r.accessCount + 1
        ∧ lookupItem (Value table loader key now).2.1.items key = some (keepAlive r now))
    ∧ (∀ (ttl : Int) (v : V) (nowA : Int),
        (Value ((Add table key ttl v nowA).1) loader key now).1
          = Except.ok (keepAlive (newCacheItem key ttl v nowA) now)
        ∧ (keepAlive (newCacheItem key ttl v nowA) now).accessCount = 1)
    ∧ (lookupItem table.items key = none → loader = none →
        Value table loader key now = (Except.error CacheError.keyNotFound, table, []))
    ∧ (∀ f, lookupItem table.items key = none → loader = some f → f key = none →
        Value table loader key now
          = (Except.error CacheError.keyNotFoundOrLoadable, table, [])) := by
  refine ⟨?_, ?_, ?_, ?_⟩
  · intro r h
    have hk : r.key = key := lookupItem_key table.items key r h
    have hself := lookupItem_insertItem_self table.items (keepAlive r now)
    rw [show (keepAlive r now).key = key from hk] at hself
    refine ⟨by simp [Value, h], by simp [keepAlive], by simp [keepAlive], ?_⟩
    simpa [Value, h] using hself
  · intro ttl v nowA
    have hadd := lookupItem_Add table key ttl v nowA
    exact ⟨by simp [Value, hadd], by simp [keepAlive, newCacheItem]⟩
  · intro h hl
    subst hl
    simp [Value, h]
  · intro f h hl hf
    subst hl
    simp [Value, h, hf]

/-- C1 witness: a hit on `tableHit` (stored `accessCount = 4`) returns the
refreshed entry with `accessCount = 5`; after `Add` on the empty table a
single `Value` yields `accessCount = 1`; `Value` of an absent key with no
loader fails with `KeyNotFound`; with a loader that yields nothing it fails
with `KeyNotFoundOrNotLoadable`. -/
theorem value_spec_app :
    Value tableHit none 1 10
      = (Except.ok (keepAlive ⟨1, 11, 0, 2, 3, 4, []⟩ 10),
         { tableHit with items := insertItem tableHit.items (keepAlive ⟨1, 11, 0, 2, 3, 4, []⟩ 10) }, [])
    ∧ (keepAlive (⟨1, 11, 0, 2, 3, 4, []⟩ : CacheItem Nat Nat) 10).accessCount = 4 + 1
    ∧ (Value ((Add tableEmpty 7 50 100 0).1) none 7 1).1
        = Except.ok (keepAlive (newCacheItem 7 50 100 0) 1)
    ∧ (keepAlive (newCacheItem 7 50 (100 : Nat) 0) 1).accessCount = 1
    ∧ Value tableEmpty none 2 10 = (Except.error CacheError.keyNotFound, tableEmpty, [])
    ∧ Value tableEmpty (some (fun _ => none)) 2 10
        = (Except.error CacheError.keyNotFoundOrLoadable, tableEmpty, []) := by
  have h1 := (value_spec tableHit none 1 10).1 ⟨1, 11, 0, 2, 3, 4, []⟩ rfl
  have h2 := (value_spec tableEmpty none 7 1).2.1 50 100 0
  have h3 := (value_spec tableEmpty none 2 10).2.2.1 rfl rfl
  have h4 := (value_spec tableEmpty (some (fun _ => none)) 2 10).2.2.2 (fun _ => none) rfl rfl rfl
  exact ⟨h1.1, h1.2.2.1, h2.1, h2.2, h3, h4⟩

/-- C2 counterexample: with a loader that returns an entry under key 99
carrying `accessCount = 7`, `Value` of key 1 at time 10 returns the
loader's entry, but the store afterwards holds a freshly constructed entry
(`createdOn = accessedOn = 10`, `accessCount = 0`) that differs from the
returned one, no entry is stored under the requested key, and
`Exists(key)` is false. -/
theorem value_loader_cex :
    (Value tableEmpty (some loaderStale) 1 10).1
        = Except.ok (⟨99, 7, 0, 0, 0, 7, []⟩ : CacheItem Nat Nat)
    ∧ existsKey (Value tableEmpty (some loaderStale) 1 10).2.1 1 = false
    ∧ (Value tableEmpty (some loaderStale) 1 10).2.1.items = [⟨99, 7, 0, 10, 10, 0, []⟩]
    ∧ ((⟨99, 7, 0, 0, 0, 7, []⟩ : CacheItem Nat Nat) ≠ ⟨99, 7, 0, 10, 10, 0, []⟩) :=
  ⟨rfl, rfl, rfl, by decide⟩

/-- C2 (amended): when the loader returns a usable entry `L`, `Value`
returns `L` itself and inserts via `Add` a freshly constructed entry under
`L`'s key carrying `L`'s key, ttl and value (with fresh timestamps and zero
access count); when `L` carries the requested key, a subsequent
`Exists(key)` is true. -/
theorem value_loader_spec (table : CacheTable K V) (f : K → Option (CacheItem K V))
    (key : K) (now : Int) (L : CacheItem K V)
    (hmiss : lookupItem table.items key = none) (hf : f key = some L) :
    (Value table (some f) key now).1 = Except.ok L
    ∧ lookupItem (Value table (some f) key now).2.1.items L.key
        = some (newCacheItem L.key L.lifeSpan L.data now)
    ∧ (L.key = key → existsKey (Value table (some f) key now).2.1 key = true) := by
  have hadd := lookupItem_Add table L.key L.lifeSpan L.data now
  refine ⟨by simp [Value, hmiss, hf], by simpa [Value, hmiss, hf] using hadd, ?_⟩
  intro hk
  subst hk
  simp only [Value, hmiss, hf, existsKey]
  rw [hadd]
  rfl

/-- C2 witness: a loader that produces an entry under the requested key ―
`Value("1")` returns the loaded entry, the store holds a fresh entry with
the same key/ttl/value, and `Exists(1)` is true afterwards. -/
theorem value_loader_spec_app :
    (Value tableEmpty (some loaderFresh) 1 10).1
        = Except.ok (⟨1, 5, 0, 0, 0, 7, []⟩ : CacheItem Nat Nat)
    ∧ lookupItem (Value tableEmpty (some loaderFresh) 1 10).2.1.items 1
        = some (newCacheItem 1 0 5 10)
    ∧ existsKey (Value tableEmpty (some loaderFresh) 1 10).2.1 1 = true := by
  have h := value_loader_spec tableEmpty loaderFresh 1 10 ⟨1, 5, 0, 0, 0, 7, []⟩ rfl rfl
  exact ⟨h.1, h.2.1, h.2.2 rfl⟩

/-- C3 counterexample: the sweep at time 0 removes the stored entry whose
ttl is −1 even though that entry does not satisfy "ttl greater than 0", so
the removed set is not exactly the entries with `ttl > 0` and
`now − lastAccessedAt > ttl`. -/
theorem expiration_negative_ttl_cex :
    (expirationCheck tableNegTtl 0).1.items = []
    ∧ tableNegTtl.items = [⟨1, 0, -1, 0, 0, 0, []⟩] :=
  ⟨rfl, rfl⟩

/-- C3 (amended): one run of the expiration sweep keeps exactly the entries
with `ttl = 0` or `now − lastAccessedAt ≤ ttl` — i.e. it removes exactly
those whose ttl is nonzero (negative ttl included) and
`now − lastAccessedAt > ttl`; every `ttl = 0` entry survives regardless of
elapsed time and every entry with `now − lastAccessedAt ≤ ttl` survives. -/
theorem expiration_removes_exactly (table : CacheTable K V) (now : Int) :
    (expirationCheck table now).1.items
      = table.items.filter
          (fun it => decide (it.lifeSpan = 0 ∨ now - it.accessedOn ≤ it.lifeSpan)) := by
  rw [expirationCheck]
  simpa using sweepLoop_items table.aboutToDeleteItem now table.items 0

/-- C5 counterexample: with a snapshot listing stale key 1 before live
key 2 and a quota of 1, the resolution loop returns nothing — the skipped
stale key consumed the whole quota even though key 2 was still resolvable
(resolving key 2 alone under the same quota returns its entry). -/
theorem mostAccessed_skip_quota_cex :
    resolveKeys itemsSkip 1 [(1, 5), (2, 3)] 0 = []
    ∧ resolveKeys itemsSkip 1 [(2, 3)] 0 = [⟨2, 0, 0, 0, 0, 3, []⟩]
    ∧ lookupItem itemsSkip 2 = some ⟨2, 0, 0, 0, 0, 3, []⟩ :=
  ⟨rfl, rfl, rfl⟩

/-- C5 (amended): in `MostAccessed`'s resolution loop a snapshotted key
that no longer resolves against the live store is silently skipped — it
contributes no item and no error — but it does count against the quota:
the examined pair consumes one unit of `count` whether it resolved or not,
so the result may contain fewer than `count` items even when further
resolvable keys remain in the snapshot. -/
theorem resolve_skip_consumes (items : List (CacheItem K V)) (count : Int)
    (k : K) (n : Int) (rest : List (K × Int)) (c : Int)
    (h : lookupItem items k = none) :
    resolveKeys items count ((k, n) :: rest) c = resolveKeys items count rest (c + 1) := by
  rw [resolveKeys]
  by_cases hc : count ≤ c
  · rw [if_pos hc]
    cases rest with
    | nil => rfl
    | cons pr rest' =>
      rw [resolveKeys, if_pos (by omega : count ≤ c + 1)]
  · rw [if_neg hc, h]

/-- C5 witness: with quota 2 the stale key 1 is skipped but advances the
counter, and the remaining quota still resolves key 2. -/
theorem resolve_skip_consumes_app :
    resolveKeys itemsSkip 2 [(1, 5), (2, 3)] 0 = resolveKeys itemsSkip 2 [(2, 3)] (0 + 1)
    ∧ resolveKeys itemsSkip 2 [(2, 3)] 1 = [⟨2, 0, 0, 0, 0, 3, []⟩] :=
  ⟨resolve_skip_consumes itemsSkip 2 1 5 [(2, 3)] 0 rfl, rfl⟩

/-- C10 counterexample: `Add` of key 1 over `tableReplace` at time 100
(while the unrelated entry under key 2 is expired) triggers the expiration
check: the table's on-delete callback 7 and entry 2's on-expire callback 9
both fire, and `Count` drops from 2 to 1 — contradicting "Count is
unchanged \.\.\. neither the region's on-delete callbacks nor \.\.\.
on-expire callbacks run". -/
theorem add_replace_cex :
    (Add tableReplace 1 3 0 100).1.items.length = 1
    ∧ tableReplace.items.length = 2
    ∧ (Add tableReplace 1 3 0 100).2
        = [Event.aboutToDelete 7 ⟨2, 0, 5, 0, 0, 0, [9]⟩, Event.aboutToExpire 9 2] :=
  ⟨rfl, rfl, rfl⟩

/-- C10 (amended): for a key already present, `Add` silently replaces the
stored entry — the store afterwards maps the key to the new entry and, when
no stored entry is expired at that instant, `Count` is unchanged and the
only callbacks invoked are the region's on-add callbacks with the new
entry; neither on-delete nor on-expire callbacks run (in particular none
for the replaced entry). -/
theorem add_replace_spec (table : CacheTable K V) (key : K) (ttl : Int) (v : V) (now : Int)
    (old : CacheItem K V) (hold : lookupItem table.items key = some old)
    (hlive : ∀ it ∈ table.items, it.lifeSpan = 0 ∨ now - it.accessedOn ≤ it.lifeSpan) :
    lookupItem (Add table key ttl v now).1.items key = some (newCacheItem key ttl v now)
    ∧ (Add table key ttl v now).1.items.length = table.items.length
    ∧ (Add table key ttl v now).2
        = table.addedItem.map (fun cb => Event.added cb (newCacheItem key ttl v now)) := by
  refine ⟨lookupItem_Add table key ttl v now, ?_⟩
  have hlen1 : (insertItem table.items (newCacheItem key ttl v now)).length
      = table.items.length := by
    apply length_insertItem
    have : (newCacheItem key ttl v now).key = key := rfl
    rw [this, hold]
    rfl
  have hall : 0 < (newCacheItem key ttl v now).lifeSpan →
      ∀ it ∈ insertItem table.items (newCacheItem key ttl v now),
        it.lifeSpan = 0 ∨ now - it.accessedOn ≤ it.lifeSpan := by
    intro hpos it hm
    rcases mem_insertItem table.items (newCacheItem key ttl v now) it hm with rfl | hm'
    · right
      simp [newCacheItem] at hpos ⊢
      omega
    · exact hlive it hm'
  rw [Add, addInternal]
  by_cases hcond : 0 < (newCacheItem key ttl v now).lifeSpan ∧
      (table.cleanupInterval = 0 ∨ (newCacheItem key ttl v now).lifeSpan < table.cleanupInterval)
  · rw [if_pos hcond]
    simp only [expirationCheck]
    constructor
    · rw [sweepLoop_items, List.filter_eq_self.mpr ?hallb]
      · exact hlen1
      case hallb =>
        intro a ha
        simpa using hall hcond.1 a ha
    · rw [sweepLoop_events]
      · simp
      · exact hall hcond.1
  · rw [if_neg hcond]
    exact ⟨hlen1, rfl⟩

/-- C10 witness: on `tableReplaceOk` (key 1 present, nothing expired at
time 2, on-add callback 3 registered) `Add(1, 3, 9)` replaces the entry,
keeps `Count` at 1, and fires exactly the on-add callback. -/
theorem add_replace_spec_app :
    lookupItem (Add tableReplaceOk 1 3 9 2).1.items 1 = some (newCacheItem 1 3 9 2)
    ∧ (Add tableReplaceOk 1 3 9 2).1.items.length = tableReplaceOk.items.length
    ∧ (Add tableReplaceOk 1 3 9 2).2 = [Event.added 3 (newCacheItem 1 3 9 2)] := by
  have h := add_replace_spec tableReplaceOk 1 3 9 2 ⟨1, 0, 5, 0, 0, 0, []⟩ rfl (by decide)
  exact ⟨h.1, h.2.1, h.2.2⟩

/-- C4 counterexample: on `tableZeroRem` at time 5 both entries survive the
sweep; the smallest remaining lifetime among surviving positive-ttl entries
is 0 (the first entry expires exactly now), yet `expirationCheck` leaves
`cleanupInterval = 2`: the `smallestDuration == 0` sentinel conflates "no
candidate yet" with a remaining lifetime of exactly 0, so the invariant
fails as stated. -/
theorem cleanupInterval_cex :
    (expirationCheck tableZeroRem 5).1.cleanupInterval = 2
    ∧ minOrZero (remainingList 5 tableZeroRem.items) = 0
    ∧ (expirationCheck tableZeroRem 5).1.items = tableZeroRem.items :=
  ⟨rfl, rfl, rfl⟩

/-- C4 (amended): provided every stored entry has nonnegative ttl and no
surviving positive-ttl entry has a remaining lifetime of exactly 0, a
completed sweep leaves `cleanupInterval` equal to the smallest remaining
lifetime `ttl − (now − lastAccessedAt)` among surviving entries with
`ttl > 0`, or 0 when there is none; `Flush` resets `cleanupInterval` to 0
over an empty store. -/
theorem cleanupInterval_min_remaining (table : CacheTable K V) (now : Int)
    (h0 : ∀ it ∈ table.items, 0 ≤ it.lifeSpan)
    (h1 : ∀ it ∈ table.items, 0 < it.lifeSpan → now - it.accessedOn ≤ it.lifeSpan →
        it.lifeSpan - (now - it.accessedOn) ≠ 0) :
    (expirationCheck table now).1.cleanupInterval = minOrZero (remainingList now table.items)
    ∧ (Flush table).1.cleanupInterval = 0 ∧ (Flush table).1.items = [] := by
  refine ⟨?_, rfl, rfl⟩
  rw [expirationCheck]
  simp only []
  rw [sweepLoop_duration]
  have hfeq : table.items.filter
        (fun it => decide (it.lifeSpan ≠ 0 ∧ now - it.accessedOn ≤ it.lifeSpan))
      = table.items.filter
        (fun it => decide (0 < it.lifeSpan ∧ now - it.accessedOn ≤ it.lifeSpan)) := by
    apply List.filter_congr
    intro it hm
    have := h0 it hm
    simp only [decide_eq_decide]
    constructor
    · intro h; exact ⟨by omega, h.2⟩
    · intro h; exact ⟨by omega, h.2⟩
  rw [hfeq, remainingList]
  apply foldl_stepMin_zero
  intro r hr
  obtain ⟨it, hitf, rfl⟩ := List.mem_map.1 hr
  obtain ⟨hm, hp⟩ := List.mem_filter.1 hitf
  simp only [decide_eq_true_eq] at hp
  have := h1 it hm hp.1 hp.2
  omega

/-- C4 witness: one surviving entry (ttl 5, accessed at 0) at time 2 —
`cleanupInterval` becomes its remaining lifetime 3. -/
theorem cleanupInterval_min_remaining_app :
    (expirationCheck tableReplaceOk 2).1.cleanupInterval
        = minOrZero (remainingList 2 tableReplaceOk.items)
    ∧ minOrZero (remainingList 2 tableReplaceOk.items) = 3 := by
  have h := cleanupInterval_min_remaining tableReplaceOk 2 (by decide) (by decide)
  exact ⟨h.1, by decide⟩

/-- C6: on a table whose entries carry pairwise distinct access counts
(and distinct keys, as the Go map guarantees) and for `count ≥ 0`,
`MostAccessed(count)` returns at most `count` entries ranked by strictly
descending access count. -/
theorem mostAccessed_ranking (table : CacheTable K V) (count : Int)
    (hkeys : (table.items.map CacheItem.key).Nodup)
    (hcounts : (table.items.map CacheItem.accessCount).Nodup)
    (hcount : 0 ≤ count) :
    ((MostAccessed table count).map CacheItem.accessCount).Pairwise (fun a b => b < a)
    ∧ ((MostAccessed table count).length : Int) ≤ count := by
  have hperm : (sortPairs (snapshotPairs table.items)).Perm (snapshotPairs table.items) :=
    sortPairs_perm (snapshotPairs table.items)
  have hres : ∀ pr ∈ sortPairs (snapshotPairs table.items),
      ∃ it, lookupItem table.items pr.1 = some it ∧ it.accessCount = pr.2 := by
    intro pr hpr
    have hmem : pr ∈ snapshotPairs table.items := hperm.mem_iff.mp hpr
    rw [snapshotPairs] at hmem
    obtain ⟨it, hit, rfl⟩ := List.mem_map.1 hmem
    exact ⟨it, lookupItem_of_mem_nodup table.items it hkeys hit, rfl⟩
  have hMA : MostAccessed table count
      = ((sortPairs (snapshotPairs table.items)).take (count - 0).toNat).filterMap
          (fun pr => lookupItem table.items pr.1) := by
    rw [MostAccessed, resolveKeys_eq_filterMap]
  have hge : (sortPairs (snapshotPairs table.items)).Pairwise (fun a b => b.2 ≤ a.2) :=
    sortPairs_pairwise (snapshotPairs table.items)
  have hsnd : ((sortPairs (snapshotPairs table.items)).map Prod.snd).Nodup := by
    have h3 : (snapshotPairs table.items).map Prod.snd
        = table.items.map CacheItem.accessCount := by
      rw [snapshotPairs, List.map_map]
      rfl
    exact ((hperm.map Prod.snd).nodup_iff).mpr (h3 ▸ hcounts)
  have hne : (sortPairs (snapshotPairs table.items)).Pairwise (fun a b => a.2 ≠ b.2) :=
    List.pairwise_map.mp hsnd
  have hstrict : (sortPairs (snapshotPairs table.items)).Pairwise (fun a b => b.2 < a.2) :=
    (hge.and hne).imp (fun h => lt_of_le_of_ne h.1 h.2.symm)
  have htake : ((sortPairs (snapshotPairs table.items)).take (count - 0).toNat).Pairwise
      (fun a b => b.2 < a.2) :=
    List.Pairwise.sublist (List.take_sublist _ _) hstrict
  have hmapAC : (MostAccessed table count).map CacheItem.accessCount
      = ((sortPairs (snapshotPairs table.items)).take (count - 0).toNat).map Prod.snd := by
    rw [hMA]
    exact filterMap_lookup_map table.items _
      (fun pr hpr => hres pr (List.mem_of_mem_take hpr))
  constructor
  · rw [hmapAC]
    exact List.pairwise_map.mpr htake
  · rw [hMA]
    have h1 := List.length_filterMap_le (fun pr : K × Int => lookupItem table.items pr.1)
      ((sortPairs (snapshotPairs table.items)).take (count - 0).toNat)
    have h2 := List.length_take_le (count - 0).toNat (sortPairs (snapshotPairs table.items))
    omega

/-- C6 witness: for entries with access counts [5, 1, 9, 3],
`MostAccessed(2)` returns at most 2 entries in strictly descending order of
access count, and concretely the counts returned are [9, 5]. -/
theorem mostAccessed_ranking_app :
    ((MostAccessed tableRanked 2).map CacheItem.accessCount).Pairwise (fun a b => b < a)
    ∧ ((MostAccessed tableRanked 2).length : Int) ≤ 2
    ∧ (MostAccessed tableRanked 2).map CacheItem.accessCount = [9, 5] := by
  have h := mostAccessed_ranking tableRanked 2 (by decide) (by decide) (by decide)
  exact ⟨h.1, h.2, by decide⟩

end Cache2go
